import Mathlib

/-!
Verification of the mewspring/go lexical scanner against its specification.

The development shallowly embeds the scanner of `lexer/lexer.go` and
`lexer/state.go` (package `lexer`) and the token-kind vocabulary of
`token/token.go` (package `token`).  Go strings are modelled as `List Char`
(one element per rune); the scanner's byte offsets become rune offsets, which
is faithful for every property stated here since no stated property depends
on byte widths.  Stateful Go code becomes explicit state passing in the
`Except` monad, whose error component models `log.Fatalln` / `log.Fatalf`
(process termination).  The state-function loop of `lexer.lex` becomes a
fueled driver over an explicit state enumeration.
-/

namespace GoScan

/-- Token kinds of `token/token.go` as used by the scanner in `lexer/state.go`
(the `Go` source also names `EOF` and `Error`, emitted by `lexer.emit` and
`lexer.errorf`).  `Type` is spelled `Typ` because `Type` is reserved in Lean. -/
inductive Kind where
  | EOF
  | Comment
  | Ident
  | Break
  | Case
  | Chan
  | Const
  | Continue
  | Default
  | Defer
  | Else
  | Fallthrough
  | For
  | Func
  | Go
  | Goto
  | If
  | Import
  | Interface
  | Map
  | Package
  | Range
  | Return
  | Select
  | Struct
  | Switch
  | Typ
  | Var
  | Not
  | Arrow
  | Mul
  | Div
  | Mod
  | Shl
  | Shr
  | And
  | Clear
  | Add
  | Sub
  | Or
  | Xor
  | Eq
  | Neq
  | Lt
  | Lte
  | Gt
  | Gte
  | Land
  | Lor
  | Assign
  | DeclAssign
  | MulAssign
  | DivAssign
  | ModAssign
  | ShlAssign
  | ShrAssign
  | AndAssign
  | ClearAssign
  | AddAssign
  | SubAssign
  | OrAssign
  | XorAssign
  | Inc
  | Dec
  | Lparen
  | Lbrack
  | Lbrace
  | Rparen
  | Rbrack
  | Rbrace
  | Dot
  | Comma
  | Colon
  | Semicolon
  | Ellipsis
  | Int
  | Float
  | Imag
  | Rune
  | String
  | Error
deriving DecidableEq

/-- A scanned token: `token.Token` restricted to the two fields the scanner in
`lexer/lexer.go` ever assigns (`Kind` and `Val`); its `emit` sets no
line/column information. -/
structure Token where
  kind : Kind
  val : List Char
deriving DecidableEq

/-- The trigger set of `insertSemicolon` (`lexer/state.go`): the token kinds
after which a semicolon is automatically inserted at the end of a line. -/
def triggerKind : Kind → Bool
  | .Ident => true
  | .Int | .Float | .Imag | .Rune | .String => true
  | .Break | .Continue | .Fallthrough | .Return => true
  | .Inc | .Dec | .Rparen | .Rbrack | .Rbrace => true
  | _ => false

/-- The synthetic semicolon token built by `insertSemicolon`. -/
def semiTok : Token := ⟨Kind.Semicolon, ";".toList⟩

/-- The backward scan of `insertSemicolon` over the current line
(`for pos = len(l.tokens) - 1; pos >= l.line; pos--`), with the loop counter
shifted by one so that counter `c + 1` inspects index `c`.  Returns the
`insert` and `trailingComments` flags and the index `pos` at which the loop
broke (`pos` is only consulted when `insert` is true). -/
def scanBack (toks : List Token) (line : Nat) : Nat → Bool → Bool × Bool × Nat
  | 0, trailing => (false, trailing, 0)
  | c + 1, trailing =>
    if c < line then (false, trailing, 0)
    else
      match toks.get? c with
      | none => (false, trailing, 0)
      | some last =>
        if last.kind = Kind.Comment then scanBack toks line c true
        else (triggerKind last.kind, trailing, c)

/-- `insertSemicolon` of `lexer/state.go`: append a synthetic semicolon when
the backward scan asks for one; when trailing comments were skipped, the
`copy`/assign pair moves them one slot right and plants the semicolon at
`pos + 1`, which is insertion at index `pos + 1`. -/
def insertSemicolon (toks : List Token) (line : Nat) : List Token :=
  match scanBack toks line toks.length false with
  | (true, true, pos) => toks.take (pos + 1) ++ semiTok :: toks.drop (pos + 1)
  | (true, false, _) => toks ++ [semiTok]
  | (false, _, _) => toks

/-- Specification-side reading of "the last non-`Comment` token of the current
line": the greatest index `i` with `line ≤ i < toks.length` whose token is not
a comment, found by scanning indices downward from `c - 1`. -/
def lastNCAux (toks : List Token) (line : Nat) : Nat → Option (Nat × Token)
  | 0 => none
  | c + 1 =>
    if c < line then none
    else
      match toks.get? c with
      | none => lastNCAux toks line c
      | some t => if t.kind = Kind.Comment then lastNCAux toks line c else some (c, t)

/-- The last non-comment token of the current line (the tokens at indices
`≥ line`), together with its index. -/
def lastNonComment (toks : List Token) (line : Nat) : Option (Nat × Token) :=
  lastNCAux toks line toks.length

theorem lastNCAux_bounds {toks : List Token} {line : Nat} :
    ∀ {c i : Nat} {t : Token}, lastNCAux toks line c = some (i, t) →
      line ≤ i ∧ i < c ∧ toks.get? i = some t := by
  intro c
  induction c with
  | zero => intro i t h; simp [lastNCAux] at h
  | succ c ih =>
    intro i t h
    unfold lastNCAux at h
    by_cases hline : c < line
    · simp [hline] at h
    · cases hget : toks.get? c with
      | none =>
        simp only [hline, if_false, hget] at h
        have := ih h
        exact ⟨this.1, Nat.lt_succ_of_lt this.2.1, this.2.2⟩
      | some u =>
        by_cases hc : u.kind = Kind.Comment
        · simp only [hline, if_false, hget, hc, if_true] at h
          have := ih h
          exact ⟨this.1, Nat.lt_succ_of_lt this.2.1, this.2.2⟩
        · simp only [hline, if_false, hget, hc, if_false] at h
          cases h
          exact ⟨Nat.le_of_not_lt hline, Nat.lt_succ_self c, hget⟩

theorem scanBack_eq_lastNCAux (toks : List Token) (line : Nat) :
    ∀ (c : Nat), c ≤ toks.length → ∀ (tr : Bool),
      (∀ i t, lastNCAux toks line c = some (i, t) →
        scanBack toks line c tr = (triggerKind t.kind, tr || decide (i + 1 < c), i)) ∧
      (lastNCAux toks line c = none → (scanBack toks line c tr).1 = false) := by
  intro c
  induction c with
  | zero =>
    intro _ tr
    constructor
    · intro i t h; simp [lastNCAux] at h
    · intro _; simp [scanBack]
  | succ c ih =>
    intro hcle tr
    have hclt : c < toks.length := hcle
    have hcle' : c ≤ toks.length := Nat.le_of_lt hclt
    obtain ⟨u, hget⟩ : ∃ u, toks.get? c = some u := ⟨_, List.get?_eq_get hclt⟩
    constructor
    · intro i t h
      unfold lastNCAux at h
      unfold scanBack
      by_cases hline : c < line
      · simp [hline] at h
      · by_cases hc : u.kind = Kind.Comment
        · simp only [hline, if_false, hget, hc, if_true] at h
          have hb := lastNCAux_bounds h
          have heq := (ih hcle' true).1 i t h
          simp only [hline, if_false, hget, hc, if_true, heq]
          have h1 : (decide (i + 1 < c + 1)) = true := by
            simp only [decide_eq_true_eq]; omega
          simp only [h1, Bool.true_or, Bool.or_true]
        · simp only [hline, if_false, hget, hc, if_false] at h
          cases h
          simp only [hline, if_false, hget, hc, if_false]
          simp
    · intro h
      unfold lastNCAux at h
      unfold scanBack
      by_cases hline : c < line
      · simp [hline]
      · by_cases hc : u.kind = Kind.Comment
        · simp only [hline, if_false, hget, hc, if_true] at h
          simp only [hline, if_false, hget, hc, if_true]
          exact (ih hcle' true).2 h
        · simp only [hline, if_false, hget, hc, if_false] at h
          exact absurd h (by simp)

/-- Shared characterization of `insertSemicolon`: either the current line has
no non-comment token and the token list is returned unchanged, or the
semicolon decision is made by the kind of the last non-comment token, and a
positive decision inserts exactly one synthetic semicolon directly after that
token (before any trailing comments). -/
theorem insertSemicolon_eq (toks : List Token) (line : Nat) :
    insertSemicolon toks line =
      match lastNonComment toks line with
      | some (i, t) =>
        if triggerKind t.kind then toks.take (i + 1) ++ semiTok :: toks.drop (i + 1)
        else toks
      | none => toks := by
  unfold insertSemicolon lastNonComment
  cases h : lastNCAux toks line toks.length with
  | none =>
    have h2 := (scanBack_eq_lastNCAux toks line toks.length (Nat.le_refl _) false).2 h
    cases hs : scanBack toks line toks.length false with
    | mk insert rest =>
      rw [hs] at h2
      simp only at h2
      subst h2
      simp
  | some p =>
    obtain ⟨i, t⟩ := p
    have h1 := (scanBack_eq_lastNCAux toks line toks.length (Nat.le_refl _) false).1 i t h
    have hb := lastNCAux_bounds h
    rw [h1]
    by_cases htr : triggerKind t.kind
    · by_cases hi : i + 1 < toks.length
      · have h2 : (decide (i + 1 < toks.length)) = true := by
          simp only [decide_eq_true_eq]; exact hi
        rw [h2]
        simp [htr]
      · have hfalse : (decide (i + 1 < toks.length)) = false := by
          simp only [decide_eq_false_iff_not]; exact hi
        rw [hfalse]
        have hlen : i + 1 = toks.length := by omega
        simp only [Bool.false_or, htr, if_true]
        rw [hlen]
        simp
    · have h2 : triggerKind t.kind = false := Bool.of_not_eq_true htr
      simp [h2]

/-- C1.  At each line boundary the scanner calls `insertSemicolon` (in the
embedding below: the `eof` and newline cases of `lexToken`, the entry of
`lexLineComment`, and the newline-spanning exit of `lexGeneralComment`), and
that call appends a synthetic `Semicolon` token with value `";"` if and only
if the current line (the tokens at indices `≥ line`) contains a non-`Comment`
token whose last occurrence has a kind in the trigger set
`{Ident, Int, Float, Imag, Rune, String, Break, Continue, Fallthrough,
Return, Inc, Dec, Rparen, Rbrack, Rbrace}`; otherwise the token list is
returned unchanged.  The semicolon lands directly after that last
non-comment token, hence before any trailing comments. -/
theorem claim_C1 (toks : List Token) (line : Nat) :
    insertSemicolon toks line =
      match lastNonComment toks line with
      | some (i, t) =>
        if triggerKind t.kind
        then toks.take (i + 1) ++ ⟨Kind.Semicolon, ";".toList⟩ :: toks.drop (i + 1)
        else toks
      | none => toks :=
  insertSemicolon_eq toks line

/-- C9.  A call to the semicolon inserter either leaves the token list
unchanged or inserts exactly one synthetic semicolon at an index `k` with
`line ≤ k ≤ toks.length`: all tokens before index `k` (in particular every
token of an earlier line, i.e. at an index `< line`) stay at their positions,
and the remaining tokens keep their relative order, shifted by one. -/
theorem claim_C9 (toks : List Token) (line : Nat) :
    insertSemicolon toks line = toks ∨
      ∃ k, line ≤ k ∧ k ≤ toks.length ∧
        insertSemicolon toks line = toks.take k ++ semiTok :: toks.drop k := by
  rw [insertSemicolon_eq]
  cases h : lastNonComment toks line with
  | none => exact Or.inl rfl
  | some p =>
    obtain ⟨i, t⟩ := p
    have hb := lastNCAux_bounds h
    by_cases htr : triggerKind t.kind
    · refine Or.inr ⟨i + 1, by omega, by omega, ?_⟩
      simp [htr]
    · have h2 : triggerKind t.kind = false := Bool.of_not_eq_true htr
      simp [h2]

namespace token

/-! Numeric token-kind vocabulary of `token/token.go`: `Kind` is a `uint8`
whose least significant bit is the invalid flag (`Invalid = 1`) and whose
named constants are `iota << 1` for `iota = 2, 3, …` (so every named kind is
even and fits in a byte; `Ellipsis`, the largest, is `80 << 1 = 160`).
`Type` is spelled `TypeKw` because `Type` is reserved in Lean. -/

def None : Nat := 0
def Invalid : Nat := 1
def Comment : Nat := 4
def Ident : Nat := 6
def Int : Nat := 8
def Float : Nat := 10
def Imag : Nat := 12
def Rune : Nat := 14
def String : Nat := 16
def Break : Nat := 18
def Case : Nat := 20
def Chan : Nat := 22
def Const : Nat := 24
def Continue : Nat := 26
def Default : Nat := 28
def Defer : Nat := 30
def Else : Nat := 32
def Fallthrough : Nat := 34
def For : Nat := 36
def Func : Nat := 38
def Go : Nat := 40
def Goto : Nat := 42
def If : Nat := 44
def Import : Nat := 46
def Interface : Nat := 48
def Map : Nat := 50
def Package : Nat := 52
def Range : Nat := 54
def Return : Nat := 56
def Select : Nat := 58
def Struct : Nat := 60
def Switch : Nat := 62
def TypeKw : Nat := 64
def Var : Nat := 66
def Not : Nat := 68
def Arrow : Nat := 70
def Mul : Nat := 72
def Div : Nat := 74
def Mod : Nat := 76
def Shl : Nat := 78
def Shr : Nat := 80
def And : Nat := 82
def Clear : Nat := 84
def Add : Nat := 86
def Sub : Nat := 88
def Or : Nat := 90
def Xor : Nat := 92
def Eq : Nat := 94
def Neq : Nat := 96
def Lt : Nat := 98
def Lte : Nat := 100
def Gt : Nat := 102
def Gte : Nat := 104
def Land : Nat := 106
def Lor : Nat := 108
def Assign : Nat := 110
def DeclAssign : Nat := 112
def MulAssign : Nat := 114
def DivAssign : Nat := 116
def ModAssign : Nat := 118
def ShlAssign : Nat := 120
def ShrAssign : Nat := 122
def AndAssign : Nat := 124
def ClearAssign : Nat := 126
def AddAssign : Nat := 128
def SubAssign : Nat := 130
def OrAssign : Nat := 132
def XorAssign : Nat := 134
def Inc : Nat := 136
def Dec : Nat := 138
def Lparen : Nat := 140
def Lbrack : Nat := 142
def Lbrace : Nat := 144
def Rparen : Nat := 146
def Rbrack : Nat := 148
def Rbrace : Nat := 150
def Dot : Nat := 152
def Comma : Nat := 154
def Colon : Nat := 156
def Semicolon : Nat := 158
def Ellipsis : Nat := 160

/-- `Kind.IsValid` of `token/token.go`: the low (invalid) bit is clear. -/
def IsValid (k : Nat) : Bool := decide (k &&& Invalid = 0)

/-- `Kind.IsKeyword` of `token/token.go`: `Break <= kind && kind <= Var`. -/
def IsKeyword (k : Nat) : Bool := decide (Break ≤ k ∧ k ≤ Var)

/-- `Kind.IsOperator` of `token/token.go`: `Not <= kind && kind <= Ellipsis`. -/
def IsOperator (k : Nat) : Bool := decide (Not ≤ k ∧ k ≤ Ellipsis)

/-- `Kind.IsLiteral` of `token/token.go`: `Ident <= kind && kind <= String`. -/
def IsLiteral (k : Nat) : Bool := decide (Ident ≤ k ∧ k ≤ String)

end token

/-- C10.  For every numeric token-kind value — every natural number, hence in
particular every byte value and every kind with the `Invalid` bit set — at
most one of the predicates `IsKeyword`, `IsOperator`, `IsLiteral` of
`token/token.go` returns true. -/
theorem claim_C10 (k : Nat) :
    (token.IsKeyword k).toNat + (token.IsOperator k).toNat + (token.IsLiteral k).toNat ≤ 1 := by
  unfold token.IsKeyword token.IsOperator token.IsLiteral
  unfold token.Break token.Var token.Not token.Ellipsis token.Ident token.String
  by_cases h1 : 18 ≤ k ∧ k ≤ 66 <;> by_cases h2 : 68 ≤ k ∧ k ≤ 160 <;>
    by_cases h3 : 6 ≤ k ∧ k ≤ 16 <;> simp [h1, h2, h3] <;> omega

/-- Modelled from the spec: position tracking is absent from the scanner under
`src/` (its `emit` assigns only `Kind` and `Val`; only `lexer_test.go`
exercises `Line`/`Col`).  Per §3 of the spec, `line` is the 1-based line
number of a token's first character and per §4.1 it is maintained by counting
the newlines before the token's start offset, counted in runes. -/
def lineAt (s : List Char) (n : Nat) : Nat := 1 + (s.take n).count '\n'

/-- Modelled from the spec: the 1-based column of the rune offset `n`, counted
in runes since the last newline before `n` (§3, §4.1 of the spec). -/
def colAt (s : List Char) (n : Nat) : Nat :=
  1 + ((s.take n).reverse.takeWhile (fun c => !(c == '\n'))).length

/-- Modelled from the spec: the (line, column) pair assigned to a token whose
first character sits at rune offset `n` of the input. -/
def posAt (s : List Char) (n : Nat) : Nat × Nat := (lineAt s n, colAt s n)

/-- Lexicographic "not later than" on (line, column) pairs. -/
def posLe (a b : Nat × Nat) : Prop := a.1 < b.1 ∨ (a.1 = b.1 ∧ a.2 ≤ b.2)

instance (a b : Nat × Nat) : Decidable (posLe a b) := by
  unfold posLe
  infer_instance

theorem posLe_refl (a : Nat × Nat) : posLe a a := Or.inr ⟨rfl, Nat.le_refl _⟩

theorem posLe_trans {a b c : Nat × Nat} (h1 : posLe a b) (h2 : posLe b c) : posLe a c := by
  rcases h1 with h1 | ⟨h1, h1'⟩ <;> rcases h2 with h2 | ⟨h2, h2'⟩
  · exact Or.inl (Nat.lt_trans h1 h2)
  · exact Or.inl (h2 ▸ h1)
  · exact Or.inl (h1 ▸ h2)
  · exact Or.inr ⟨h1.trans h2, Nat.le_trans h1' h2'⟩

theorem posAt_step (s : List Char) (n : Nat) : posLe (posAt s n) (posAt s (n + 1)) := by
  cases hget : s.get? n with
  | none =>
    have hlen : s.length ≤ n := List.get?_eq_none.mp hget
    have htake : s.take (n + 1) = s.take n := by
      rw [List.take_of_length_le hlen, List.take_of_length_le (Nat.le_succ_of_le hlen)]
    exact Or.inr (by simp [posAt, lineAt, colAt, htake])
  | some c =>
    have hget' : s[n]? = some c := by
      rw [← List.get?_eq_getElem?]
      exact hget
    have htake : s.take (n + 1) = s.take n ++ [c] := by
      rw [List.take_succ, hget']
      rfl
    by_cases hc : c = '\n'
    · refine Or.inl ?_
      simp only [posAt, lineAt, htake, List.count_append, hc]
      have : List.count '\n' ['\n'] = 1 := by decide
      omega
    · refine Or.inr ⟨?_, ?_⟩
      · simp only [posAt, lineAt, htake, List.count_append]
        have : List.count '\n' [c] = 0 := by
          simp [List.count_singleton', hc]
        omega
      · simp only [posAt, colAt, htake, List.reverse_append]
        have hpred : (!(c == '\n')) = true := by simp [hc]
        simp [List.takeWhile, hpred]

theorem posAt_mono (s : List Char) {m n : Nat} (h : m ≤ n) : posLe (posAt s m) (posAt s n) := by
  induction n with
  | zero =>
    have : m = 0 := Nat.le_zero.mp h
    subst this
    exact posLe_refl _
  | succ n ih =>
    rcases Nat.lt_or_ge m (n + 1) with hlt | hge
    · exact posLe_trans (ih (Nat.lt_succ_iff.mp hlt)) (posAt_step s n)
    · have : m = n + 1 := Nat.le_antisymm h hge
      subst this
      exact posLe_refl _

/-- C8.  Spec-modelled token positions: for any input and any stream of token
start offsets that is (as the scanner guarantees) non-decreasing, the assigned
(`line`, `column`) pairs — each by construction the 1-based, rune-counted
position of the token's first character — are lexicographically monotone
non-decreasing across the stream, and both components are always ≥ 1. -/
theorem claim_C8 (s : List Char) (starts : List Nat)
    (hs : List.Pairwise (· ≤ ·) starts) :
    List.Pairwise posLe (starts.map (posAt s)) ∧
      ∀ n : Nat, 1 ≤ (posAt s n).1 ∧ 1 ≤ (posAt s n).2 := by
  constructor
  · exact (List.pairwise_map).mpr (hs.imp (fun h => posAt_mono s h))
  · intro n
    exact ⟨Nat.le_add_right 1 _, Nat.le_add_right 1 _⟩

/-- Witness for C8 at the concrete input "ab\ncd" with start offsets
0, 1, 3, 4. -/
theorem claim_C8_witness :
    List.Pairwise (· ≤ ·) ([0, 1, 3, 4] : List Nat) ∧
      (List.Pairwise posLe ((([0, 1, 3, 4] : List Nat)).map (posAt ("ab\ncd".toList))) ∧
        ∀ n : Nat, 1 ≤ (posAt ("ab\ncd".toList) n).1 ∧ 1 ≤ (posAt ("ab\ncd".toList) n).2) :=
  ⟨by decide, claim_C8 ("ab\ncd".toList) [0, 1, 3, 4] (by decide)⟩

/-! The scanner itself: `lexer/lexer.go` and `lexer/state.go`.  Go strings
become `List Char` and byte offsets become rune offsets (`width` is the rune
count, 0 or 1, of the last `next`).  `log.Fatalln`/`log.Fatalf` — process
termination — is the error component of `Except`; `errorf`, which only
appends an `Error` token and ends the scan by returning a nil state function,
is a plain state update followed by a halt. -/

/-- The scanner state of `lexer/lexer.go` (`type lexer struct`). -/
structure lexer where
  input : List Char
  start : Nat
  pos : Nat
  width : Nat
  tokens : List Token
  line : Nat

/-- Computations that may terminate the process (`log.Fatalln`/`log.Fatalf`). -/
abbrev Lx (α : Type) := Except (List Char) α

/-- The white space characters (except newline) of `lexer/state.go`. -/
def whitespace : List Char := " \t\r".toList

/-- The decimal digit characters of `lexer/state.go`. -/
def decimal : List Char := "0123456789".toList

/-- The octal digit characters of `lexer/state.go`. -/
def octal : List Char := "01234567".toList

/-- The hexadecimal digit characters of `lexer/state.go`. -/
def hex : List Char := "0123456789ABCDEFabcdef".toList

/-- `lexer.next`: consume and return the next rune, or the eof sentinel
(`none`) with width 0. -/
def next (l : lexer) : Option Char × lexer :=
  match l.input.get? l.pos with
  | some r => (some r, { l with pos := l.pos + 1, width := 1 })
  | none => (none, { l with width := 0 })

/-- The `log.Fatalln` message of `lexer.backup`. -/
def backupMsg : List Char :=
  "lexer.lexer.backup: invalid width; no matching call to next.".toList

/-- `lexer.backup`: back up one rune; a second backup after one `next` — in
particular a backup after `next` returned the eof sentinel — hits the
`log.Fatalln` branch. -/
def backup (l : lexer) : Lx lexer :=
  if l.width = 0 then .error backupMsg
  else .ok { l with pos := l.pos - l.width, width := 0 }

/-- `lexer.accept`: consume the next rune if it is in the valid set. -/
def accept (valid : List Char) (l : lexer) : Lx (Bool × lexer) := do
  let (r, l) := next l
  match r with
  | none => return (false, l)
  | some c =>
    if valid.contains c then
      return (true, l)
    else
      let l ← backup l
      return (false, l)

/-- The loop of `lexer.acceptRun`, fueled: every successful `accept` advances
`pos` by one, so the fuel passed by `acceptRun` is never exhausted. -/
def acceptRunF (valid : List Char) : Nat → lexer → Bool → Lx (Bool × lexer)
  | 0, l, consumed => .ok (consumed, l)
  | fuel + 1, l, consumed => do
    let (b, l) ← accept valid l
    if b then acceptRunF valid fuel l true else return (consumed, l)

/-- `lexer.acceptRun`: consume a run of runes from the valid set, reporting
whether at least one rune was consumed. -/
def acceptRun (valid : List Char) (l : lexer) : Lx (Bool × lexer) :=
  acceptRunF valid (l.input.length + 1 - l.pos) l false

/-- `lexer.ignore`: discard any pending input read since the last token. -/
def ignore (l : lexer) : lexer := { l with start := l.pos }

/-- `lexer.ignoreRun`: ignore a run of valid runes. -/
def ignoreRun (valid : List Char) (l : lexer) : Lx lexer := do
  let (b, l) ← acceptRun valid l
  return (if b then ignore l else l)

/-- The Go slice `xs[a:b]`. -/
def sliceCh (xs : List Char) (a b : Nat) : List Char := (xs.take b).drop a

def natChars (n : Nat) : List Char := (Nat.repr n).toList

/-- Go `%q` of a string, without escaping; only interpolated into fatal and
error messages that no theorem of this file evaluates. -/
def goQuoteStr (s : List Char) : List Char := '"' :: (s ++ ['"'])

/-- The `log.Fatalf` message of `lexer.emit` for an `EOF` with pending input
positions. -/
def emitEofMsgPos (pos len : Nat) : List Char :=
  ("lexer.lexer.emit: unexpected eof; pos ".toList) ++ natChars pos ++
    (" < len(input) ".toList) ++ natChars len ++ (".\n".toList)

/-- The `log.Fatalf` message of `lexer.emit` for an `EOF` with unhandled
pending input. -/
def emitEofMsgPending (pending : List Char) : List Char :=
  ("lexer.lexer.emit: invalid eof; pending input ".toList) ++ goQuoteStr pending ++
    (" not handled.\n".toList)

/-- `lexer.emit`: append a token whose value is `input[start:pos]` and advance
the token start position; an `EOF` is checked against unconsumed input first,
`log.Fatalf`-ing when any remains. -/
def emit (kind : Kind) (l : lexer) : Lx lexer :=
  if kind = Kind.EOF then
    if l.pos < l.input.length then .error (emitEofMsgPos l.pos l.input.length)
    else if l.start ≠ l.pos then
      .error (emitEofMsgPending (sliceCh l.input l.start l.input.length))
    else .ok { l with tokens := l.tokens ++ [⟨kind, sliceCh l.input l.start l.pos⟩],
                      start := l.pos }
  else .ok { l with tokens := l.tokens ++ [⟨kind, sliceCh l.input l.start l.pos⟩],
                    start := l.pos }

/-- `lexer.errorf`: append an error token; the caller then terminates the scan
by returning a nil state function. -/
def errorf (msg : List Char) (l : lexer) : lexer :=
  { l with tokens := l.tokens ++ [⟨Kind.Error, msg⟩] }

/-- Go `%q` of a rune; matches Go on the printable ASCII runes it is evaluated
at in this file (the escaping `%q` performs on quotes, backslashes and
non-printables is not modelled — no theorem evaluates it there). -/
def goQuoteRune (c : Char) : List Char := '\x27' :: c :: ['\x27']

/-- Go `%q` applied to the result of a `next` call inside an error message;
the eof-sentinel case is never evaluated by a theorem of this file. -/
def goQuoteOptRune : Option Char → List Char
  | some c => goQuoteRune c
  | none => "'\\uFFFD'".toList

/-- `isLetter` of `lexer/state.go`: `unicode.IsLetter(r) || r == '_'`.
`Char.isAlpha` agrees with `unicode.IsLetter` on the ASCII range, and every
input evaluated by a theorem of this file is ASCII. -/
def isLetter (c : Char) : Bool := c.isAlpha || c = '_'

/-- `unicode.IsDigit`, on the ASCII range (see `isLetter`). -/
def isDigit (c : Char) : Bool := c.isDigit

/-- The reserved-keyword table of `lexer/state.go`. -/
def keywords : List (List Char × Kind) :=
  [("break".toList, Kind.Break),
   ("case".toList, Kind.Case),
   ("chan".toList, Kind.Chan),
   ("const".toList, Kind.Const),
   ("continue".toList, Kind.Continue),
   ("default".toList, Kind.Default),
   ("defer".toList, Kind.Defer),
   ("else".toList, Kind.Else),
   ("fallthrough".toList, Kind.Fallthrough),
   ("for".toList, Kind.For),
   ("func".toList, Kind.Func),
   ("go".toList, Kind.Go),
   ("goto".toList, Kind.Goto),
   ("if".toList, Kind.If),
   ("import".toList, Kind.Import),
   ("interface".toList, Kind.Interface),
   ("map".toList, Kind.Map),
   ("package".toList, Kind.Package),
   ("range".toList, Kind.Range),
   ("return".toList, Kind.Return),
   ("select".toList, Kind.Select),
   ("struct".toList, Kind.Struct),
   ("switch".toList, Kind.Switch),
   ("type".toList, Kind.Typ),
   ("var".toList, Kind.Var)]

def lookupKeyword (s : List Char) : Option Kind :=
  (keywords.find? (fun p => p.1 == s)).map (fun p => p.2)

/-- `strings.HasPrefix(s, pre)`. -/
def goHasPrefix : List Char → List Char → Bool
  | _, [] => true
  | [], _ :: _ => false
  | c :: cs, p :: ps => c == p && goHasPrefix cs ps

/-- `strings.HasSuffix(s, suffix)`. -/
def goHasSuffix (s suffix : List Char) : Bool := goHasPrefix s.reverse suffix.reverse

/-- `insertSemicolon` applied to the scanner state. -/
def insertSemicolonL (l : lexer) : lexer :=
  { l with tokens := insertSemicolon l.tokens l.line }

/-- The statement `l.line = len(l.tokens)`: the current line now starts at the
next emitted token. -/
def markLineStart (l : lexer) : lexer := { l with line := l.tokens.length }

/-- The state functions of `lexer/state.go`; inner scan loops become their own
states so that a single fueled driver executes everything. -/
inductive St where
  | tok
  | divOrComment
  | lineComment
  | lineCommentLoop
  | generalComment (hasNewline : Bool)
  | notOp
  | lessArrowShl
  | greaterShr
  | andOrClear
  | orOp
  | eqOrAssign
  | colonOrDeclAssign
  | mulOp
  | modOp
  | xorOp
  | addOrInc
  | subOrDec
  | dotOrNumber
  | runeLit
  | stringLoop
  | rawStringLoop
  | identLoop

/-- Result of one driver step: continue in a state (`return lexFoo`), or end
the scan (a nil state function). -/
inductive StepRes where
  | cont (st : St) (l : lexer)
  | halt (l : lexer)

/-- The bounded `for i := 0; i < n; i++` hex-digit loop of the Unicode escape
cases of `consumeEscape`. -/
def acceptHexRun : Nat → lexer → Lx (Bool × lexer)
  | 0, l => .ok (true, l)
  | n + 1, l => do
    let (b, l) ← accept hex l
    if b then acceptHexRun n l else return (false, l)

def hexDigitVal (c : Char) : Nat :=
  if c.isDigit then c.toNat - '0'.toNat
  else if 'a' ≤ c ∧ c ≤ 'f' then c.toNat - 'a'.toNat + 10
  else if 'A' ≤ c ∧ c ≤ 'F' then c.toNat - 'A'.toNat + 10
  else 0

/-- Value of a run of octal digits (`strconv.ParseUint(·, 8, 8)`). -/
def octVal (s : List Char) : Nat := s.foldl (fun acc c => acc * 8 + hexDigitVal c) 0

/-- Value of a run of hexadecimal digits (`strconv.ParseUint(·, 16, 32)`). -/
def hexVal (s : List Char) : Nat := s.foldl (fun acc c => acc * 16 + hexDigitVal c) 0

/-- `utf8.ValidRune` for the code points reachable from at most eight hex
digits: within the Unicode range and not a surrogate half. -/
def validRune (x : Nat) : Bool := decide (x ≤ 0x10FFFF ∧ ¬(0xD800 ≤ x ∧ x ≤ 0xDFFF))

/-- `consumeEscape` of `lexer/state.go`.  Returns the error (`nil` or a
message) exactly as the Go function, together with the advanced scanner
state; the interpolated `strconv` error texts are spelled out in the message
helpers above. -/
def consumeEscape (l0 : lexer) (valid : Char) : Lx (Option (List Char) × lexer) := do
  let mut l := l0
  let (r, l1) := next l
  l := l1
  match r with
  | some '0' | some '1' | some '2' | some '3' =>
    -- Octal escape: `if !l.accept(octal) || !l.accept(octal)` (short-circuit).
    let r1 ← accept octal l
    l := r1.2
    let mut ok := r1.1
    if r1.1 then
      let r2 ← accept octal l
      l := r2.2
      ok := r2.1
    if !ok then
      let (r3, l3) := next l
      l := l3
      return (some (("non-octal character ".toList) ++ goQuoteOptRune r3 ++
        (" in octal escape".toList)), l)
    -- strconv.ParseUint(l.input[l.pos-3:l.pos], 8, 8) fails iff the value
    -- exceeds eight bits.
    let digits := sliceCh l.input (l.pos - 3) l.pos
    if octVal digits > 255 then
      return (some (("invalid octal escape; strconv.ParseUint: parsing ".toList) ++
        goQuoteStr digits ++ (": value out of range".toList)), l)
    return (none, l)
  | some 'x' =>
    let r1 ← accept hex l
    l := r1.2
    let mut ok := r1.1
    if r1.1 then
      let r2 ← accept hex l
      l := r2.2
      ok := r2.1
    if !ok then
      let (r3, l3) := next l
      l := l3
      return (some (("non-hex character ".toList) ++ goQuoteOptRune r3 ++
        (" in hex escape".toList)), l)
    return (none, l)
  | some 'u' | some 'U' =>
    let n : Nat := if r = some 'U' then 8 else 4
    let ru ← acceptHexRun n l
    l := ru.2
    if !ru.1 then
      let (r3, l3) := next l
      l := l3
      return (some (("non-hex character ".toList) ++ goQuoteOptRune r3 ++
        (" in Unicode escape".toList)), l)
    -- strconv.ParseUint(·, 16, 32) cannot fail on at most eight hex digits.
    let x := hexVal (sliceCh l.input (l.pos - n) l.pos)
    if !validRune x then
      return (some (("invalid rune ".toList) ++ ('\x27' :: (natChars x ++ ['\x27'])) ++
        (" in Unicode escape".toList)), l)
    return (none, l)
  | some 'a' | some 'b' | some 'f' | some 'n' | some 'r' | some 't' | some 'v' | some '\\' =>
    -- Single-character escape.
    return (none, l)
  | some c =>
    if c = valid then
      -- Single-character escape (the delimiter-specific quote).
      return (none, l)
    return (some (("unknown escape sequence: ".toList) ++ goQuoteRune c), l)
  | none =>
    return (some (("unknown escape sequence: ".toList) ++ goQuoteOptRune none), l)

/-- `lexToken`, the initial state function: skip non-newline whitespace and
dispatch on the next rune. -/
def lexToken (l0 : lexer) : Lx StepRes := do
  -- Ignore white space characters (except newline).
  let l ← ignoreRun whitespace l0
  let (r, l) := next l
  match r with
  | none =>
    let l := insertSemicolonL l
    -- Emit an EOF and terminate the lexer with a nil state function.
    let l ← emit Kind.EOF l
    return .halt l
  | some '\n' =>
    let l := ignore l
    let l := insertSemicolonL l
    -- Update the index to the first token of the current line.
    let l := markLineStart l
    return .cont St.tok l
  | some '/' => return .cont St.divOrComment l
  | some '!' => return .cont St.notOp l
  | some '<' => return .cont St.lessArrowShl l
  | some '>' => return .cont St.greaterShr l
  | some '&' => return .cont St.andOrClear l
  | some '|' => return .cont St.orOp l
  | some '=' => return .cont St.eqOrAssign l
  | some ':' => return .cont St.colonOrDeclAssign l
  | some '*' => return .cont St.mulOp l
  | some '%' => return .cont St.modOp l
  | some '^' => return .cont St.xorOp l
  | some '+' => return .cont St.addOrInc l
  | some '-' => return .cont St.subOrDec l
  | some '(' =>
    let l ← emit Kind.Lparen l
    return .cont St.tok l
  | some '[' =>
    let l ← emit Kind.Lbrack l
    return .cont St.tok l
  | some '\x7b' =>
    let l ← emit Kind.Lbrace l
    return .cont St.tok l
  | some ')' =>
    let l ← emit Kind.Rparen l
    return .cont St.tok l
  | some ']' =>
    let l ← emit Kind.Rbrack l
    return .cont St.tok l
  | some '\x7d' =>
    let l ← emit Kind.Rbrace l
    return .cont St.tok l
  | some ',' =>
    let l ← emit Kind.Comma l
    return .cont St.tok l
  | some ';' =>
    let l ← emit Kind.Semicolon l
    return .cont St.tok l
  | some '.' | some '0' | some '1' | some '2' | some '3' | some '4'
  | some '5' | some '6' | some '7' | some '8' | some '9' =>
    let l ← backup l
    return .cont St.dotOrNumber l
  | some '\x27' => return .cont St.runeLit l
  | some '"' => return .cont St.stringLoop l
  | some '\x60' => return .cont St.rawStringLoop l
  | some c =>
    -- Check if r is a Unicode letter or an underscore character.
    if isLetter c then
      return .cont St.identLoop l
    else
      return .halt (errorf (("syntax error; unexpected ".toList) ++ goQuoteRune c) l)

/-- `lexDivOrComment`: a slash has been consumed. -/
def lexDivOrComment (l0 : lexer) : Lx StepRes := do
  let (r, l) := next l0
  match r with
  | some '=' =>
    -- Division assignment operator (/=).
    let l ← emit Kind.DivAssign l
    return .cont St.tok l
  | some '/' =>
    -- Line comment (//).
    return .cont St.lineComment l
  | some '*' =>
    -- General comment (/*).
    return .cont (St.generalComment false) l
  | _ =>
    -- Division operator (/).
    let l ← backup l
    let l ← emit Kind.Div l
    return .cont St.tok l

/-- Entry of `lexLineComment`: a line comment acts like a newline, so the
semicolon inserter runs before its body is scanned. -/
def lexLineComment (l0 : lexer) : Lx StepRes := do
  let l := insertSemicolonL l0
  return .cont St.lineCommentLoop l

/-- The scan loop of `lexLineComment`. -/
def lexLineCommentLoop (l0 : lexer) : Lx StepRes := do
  let (r, l) := next l0
  match r with
  | none =>
    let l ← emit Kind.Comment l
    -- Emit an EOF and terminate the lexer with a nil state function.
    let l ← emit Kind.EOF l
    return .halt l
  | some '\n' =>
    let l ← emit Kind.Comment l
    -- Update the index to the first token of the current line.
    let l := markLineStart l
    return .cont St.tok l
  | some _ => return .cont St.lineCommentLoop l

/-- `lexGeneralComment`, with the loop's `hasNewline` flag carried in the
state; the `strings.HasSuffix` loop condition is tested before each `next`. -/
def lexGeneralComment (hasNewline : Bool) (l0 : lexer) : Lx StepRes := do
  if goHasSuffix (sliceCh l0.input l0.start l0.pos) ("*/".toList) then
    let l := if hasNewline then markLineStart (insertSemicolonL l0) else l0
    let l ← emit Kind.Comment l
    return .cont St.tok l
  else
    let (r, l) := next l0
    match r with
    | none => return .halt (errorf ("unexpected eof in general comment".toList) l)
    | some '\n' => return .cont (St.generalComment true) l
    | some _ => return .cont (St.generalComment hasNewline) l

/-- `lexNot`: an exclamation mark has been consumed. -/
def lexNot (l0 : lexer) : Lx StepRes := do
  let (r, l) := next l0
  match r with
  | some '=' =>
    let l ← emit Kind.Neq l
    return .cont St.tok l
  | _ =>
    let l ← backup l
    let l ← emit Kind.Not l
    return .cont St.tok l

/-- `lexLessArrowOrShl`: a less-than sign has been consumed. -/
def lexLessArrowOrShl (l0 : lexer) : Lx StepRes := do
  let (r, l) := next l0
  match r with
  | some '-' =>
    let l ← emit Kind.Arrow l
    return .cont St.tok l
  | some '<' =>
    let (b, l) ← accept ("=".toList) l
    if b then
      let l ← emit Kind.ShlAssign l
      return .cont St.tok l
    else
      let l ← emit Kind.Shl l
      return .cont St.tok l
  | some '=' =>
    let l ← emit Kind.Lte l
    return .cont St.tok l
  | _ =>
    let l ← backup l
    let l ← emit Kind.Lt l
    return .cont St.tok l

/-- `lexGreaterOrShr`: a greater-than sign has been consumed. -/
def lexGreaterOrShr (l0 : lexer) : Lx StepRes := do
  let (r, l) := next l0
  match r with
  | some '>' =>
    let (b, l) ← accept ("=".toList) l
    if b then
      let l ← emit Kind.ShrAssign l
      return .cont St.tok l
    else
      let l ← emit Kind.Shr l
      return .cont St.tok l
  | some '=' =>
    let l ← emit Kind.Gte l
    return .cont St.tok l
  | _ =>
    let l ← backup l
    let l ← emit Kind.Gt l
    return .cont St.tok l

/-- `lexAndOrClear`: an ampersand has been consumed. -/
def lexAndOrClear (l0 : lexer) : Lx StepRes := do
  let (r, l) := next l0
  match r with
  | some '^' =>
    let (b, l) ← accept ("=".toList) l
    if b then
      let l ← emit Kind.ClearAssign l
      return .cont St.tok l
    else
      let l ← emit Kind.Clear l
      return .cont St.tok l
  | some '&' =>
    let l ← emit Kind.Land l
    return .cont St.tok l
  | some '=' =>
    let l ← emit Kind.AndAssign l
    return .cont St.tok l
  | _ =>
    let l ← backup l
    let l ← emit Kind.And l
    return .cont St.tok l

/-- `lexOr`: a vertical bar has been consumed. -/
def lexOr (l0 : lexer) : Lx StepRes := do
  let (r, l) := next l0
  match r with
  | some '|' =>
    let l ← emit Kind.Lor l
    return .cont St.tok l
  | some '=' =>
    let l ← emit Kind.OrAssign l
    return .cont St.tok l
  | _ =>
    let l ← backup l
    let l ← emit Kind.Or l
    return .cont St.tok l

/-- `lexEqOrAssign`: an equal sign has been consumed. -/
def lexEqOrAssign (l0 : lexer) : Lx StepRes := do
  let (r, l) := next l0
  match r with
  | some '=' =>
    let l ← emit Kind.Eq l
    return .cont St.tok l
  | _ =>
    let l ← backup l
    let l ← emit Kind.Assign l
    return .cont St.tok l

/-- `lexColonOrDeclAssign`: a colon has been consumed. -/
def lexColonOrDeclAssign (l0 : lexer) : Lx StepRes := do
  let (r, l) := next l0
  match r with
  | some '=' =>
    let l ← emit Kind.DeclAssign l
    return .cont St.tok l
  | _ =>
    let l ← backup l
    let l ← emit Kind.Colon l
    return .cont St.tok l

/-- `lexMul`: an asterisk has been consumed. -/
def lexMul (l0 : lexer) : Lx StepRes := do
  let (r, l) := next l0
  match r with
  | some '=' =>
    let l ← emit Kind.MulAssign l
    return .cont St.tok l
  | _ =>
    let l ← backup l
    let l ← emit Kind.Mul l
    return .cont St.tok l

/-- `lexMod`: a percent sign has been consumed. -/
def lexMod (l0 : lexer) : Lx StepRes := do
  let (r, l) := next l0
  match r with
  | some '=' =>
    let l ← emit Kind.ModAssign l
    return .cont St.tok l
  | _ =>
    let l ← backup l
    let l ← emit Kind.Mod l
    return .cont St.tok l

/-- `lexXor`: a caret has been consumed. -/
def lexXor (l0 : lexer) : Lx StepRes := do
  let (r, l) := next l0
  match r with
  | some '=' =>
    let l ← emit Kind.XorAssign l
    return .cont St.tok l
  | _ =>
    let l ← backup l
    let l ← emit Kind.Xor l
    return .cont St.tok l

/-- `lexAddOrInc`: a plus has been consumed. -/
def lexAddOrInc (l0 : lexer) : Lx StepRes := do
  let (r, l) := next l0
  match r with
  | some '=' =>
    let l ← emit Kind.AddAssign l
    return .cont St.tok l
  | some '+' =>
    let l ← emit Kind.Inc l
    return .cont St.tok l
  | _ =>
    let l ← backup l
    let l ← emit Kind.Add l
    return .cont St.tok l

/-- `lexSubOrDec`: a minus has been consumed. -/
def lexSubOrDec (l0 : lexer) : Lx StepRes := do
  let (r, l) := next l0
  match r with
  | some '=' =>
    let l ← emit Kind.SubAssign l
    return .cont St.tok l
  | some '-' =>
    let l ← emit Kind.Dec l
    return .cont St.tok l
  | _ =>
    let l ← backup l
    let l ← emit Kind.Sub l
    return .cont St.tok l

/-- `lexDotOrNumber`: a dot delimiter, an ellipsis, or a number.  Go declares
`var kind token.Kind`, whose zero value is `token.EOF`. -/
def lexDotOrNumber (l0 : lexer) : Lx StepRes := do
  let mut l := l0
  let mut kind : Kind := Kind.EOF
  -- Integer part.
  let r0 ← accept ("0".toList) l
  l := r0.2
  if r0.1 then
    kind := Kind.Int
    -- Early return for hexadecimal constant.
    let rx ← accept ("xX".toList) l
    l := rx.2
    if rx.1 then
      let rh ← acceptRun hex l
      l := rh.2
      if !rh.1 then
        return .halt (errorf ("malformed hexadecimal constant".toList) l)
      l ← emit Kind.Int l
      return .cont St.tok l
  let rd ← acceptRun decimal l
  l := rd.2
  if rd.1 then
    kind := Kind.Int
  -- Decimal point.
  let rp ← accept (".".toList) l
  l := rp.2
  if rp.1 then
    if kind = Kind.Int then
      kind := Kind.Float
    else
      kind := Kind.Dot
  -- Fraction part.
  let rf ← acceptRun decimal l
  l := rf.2
  if rf.1 then
    kind := Kind.Float
  -- Early return for dot or ellipsis delimiter.
  if kind = Kind.Dot then
    if goHasPrefix (l.input.drop l.pos) ("..".toList) then
      l := { l with pos := l.pos + 2, width := 0 }
      kind := Kind.Ellipsis
    l ← emit kind l
    return .cont St.tok l
  -- Exponent part.
  let re ← accept ("eE".toList) l
  l := re.2
  if re.1 then
    kind := Kind.Float
    -- Optional sign.
    let rs ← accept ("+-".toList) l
    l := rs.2
    let rexp ← acceptRun decimal l
    l := rexp.2
    if !rexp.1 then
      return .halt (errorf ("malformed exponent of floating-point constant".toList) l)
  -- Imaginary.
  let ri ← accept ("i".toList) l
  l := ri.2
  if ri.1 then
    kind := Kind.Imag
  l ← emit kind l
  return .cont St.tok l

/-- `lexRune`: a single quote has been consumed. -/
def lexRune (l0 : lexer) : Lx StepRes := do
  let mut l := l0
  let (r, l1) := next l
  l := l1
  match r with
  | none => return .halt (errorf ("unexpected eof in rune literal".toList) l)
  | some '\n' => return .halt (errorf ("unexpected newline in rune literal".toList) l)
  | some '\\' =>
    -- Consume backslash escape sequence.
    let rc ← consumeEscape l '\x27'
    l := rc.2
    match rc.1 with
    | some e =>
      return .halt (errorf (("invalid escape sequence in interpreted string literal; ".toList)
        ++ e) l)
    | none => pure ()
  | some _ => pure ()
  let rq ← accept ("\x27".toList) l
  l := rq.2
  if !rq.1 then
    return .halt (errorf ("missing \x27 in rune literal".toList) l)
  l ← emit Kind.Rune l
  return .cont St.tok l

/-- The scan loop of `lexString`: a double quote has been consumed. -/
def lexStringLoop (l0 : lexer) : Lx StepRes := do
  let mut l := l0
  let (r, l1) := next l
  l := l1
  match r with
  | none =>
    return .halt (errorf ("unexpected eof in interpreted string literal".toList) l)
  | some '\n' =>
    return .halt (errorf ("unexpected newline in interpreted string literal".toList) l)
  | some '\\' =>
    -- Consume backslash escape sequence.
    let rc ← consumeEscape l '"'
    l := rc.2
    match rc.1 with
    | some e =>
      return .halt (errorf (("invalid escape sequence in interpreted string literal; ".toList)
        ++ e) l)
    | none => return .cont St.stringLoop l
  | some '"' =>
    l ← emit Kind.String l
    return .cont St.tok l
  | some _ => return .cont St.stringLoop l

/-- The scan loop of `lexRawString`: a back quote has been consumed. -/
def lexRawStringLoop (l0 : lexer) : Lx StepRes := do
  let (r, l) := next l0
  match r with
  | none => return .halt (errorf ("unexpected eof in raw string literal".toList) l)
  | some '\x60' =>
    let l ← emit Kind.String l
    return .cont St.tok l
  | some _ => return .cont St.rawStringLoop l

/-- The scan loop of `lexKeywordOrIdent`: a letter or underscore has been
consumed; on the first rune that is neither letter nor digit (including the
eof sentinel) the loop backs up and emits the keyword or identifier. -/
def lexKeywordOrIdentLoop (l0 : lexer) : Lx StepRes := do
  let mut l := l0
  let (r, l1) := next l
  l := l1
  let isCont : Bool :=
    match r with
    | some c => isLetter c || isDigit c
    | none => false
  if isCont then
    return .cont St.identLoop l
  l ← backup l
  let s := sliceCh l.input l.start l.pos
  match lookupKeyword s with
  | some kind => l ← emit kind l
  | none => l ← emit Kind.Ident l
  return .cont St.tok l

/-- One step of the state-function loop of `lexer.lex`. -/
def step : St → lexer → Lx StepRes
  | St.tok, l => lexToken l
  | St.divOrComment, l => lexDivOrComment l
  | St.lineComment, l => lexLineComment l
  | St.lineCommentLoop, l => lexLineCommentLoop l
  | St.generalComment h, l => lexGeneralComment h l
  | St.notOp, l => lexNot l
  | St.lessArrowShl, l => lexLessArrowOrShl l
  | St.greaterShr, l => lexGreaterOrShr l
  | St.andOrClear, l => lexAndOrClear l
  | St.orOp, l => lexOr l
  | St.eqOrAssign, l => lexEqOrAssign l
  | St.colonOrDeclAssign, l => lexColonOrDeclAssign l
  | St.mulOp, l => lexMul l
  | St.modOp, l => lexMod l
  | St.xorOp, l => lexXor l
  | St.addOrInc, l => lexAddOrInc l
  | St.subOrDec, l => lexSubOrDec l
  | St.dotOrNumber, l => lexDotOrNumber l
  | St.runeLit, l => lexRune l
  | St.stringLoop, l => lexStringLoop l
  | St.rawStringLoop, l => lexRawStringLoop l
  | St.identLoop, l => lexKeywordOrIdentLoop l

/-- What a whole scan can do: return the scanned tokens, terminate the process
(`log.Fatalln`/`log.Fatalf`), or — never with the fuel `Parse` supplies on
the inputs evaluated here — exhaust its fuel. -/
inductive Outcome where
  | done (tokens : List Token)
  | fatal (msg : List Char)
  | outOfFuel
deriving DecidableEq

/-- The state-function loop of `lexer.lex`, fueled. -/
def run : Nat → St → lexer → Outcome
  | 0, _, _ => Outcome.outOfFuel
  | fuel + 1, st, l =>
    match step st l with
    | .ok (.cont st' l') => run fuel st' l'
    | .ok (.halt l') => Outcome.done l'.tokens
    | .error msg => Outcome.fatal msg

/-- The fresh scanner state `Parse` builds for an input. -/
def mkLexer (input : List Char) : lexer := ⟨input, 0, 0, 0, [], 0⟩

/-- `Parse` of `lexer/lexer.go`: scan the whole input.  Each driver step
either consumes at least one rune or is one of the boundedly many
non-consuming steps per token, so the generous fuel below is never exhausted
on the concrete inputs evaluated in this file. -/
def Parse (input : List Char) : Outcome :=
  run (4 * input.length + 16) St.tok (mkLexer input)

/-- C3.  When the input ends at end-of-input inside a recognizer whose default
branch backs up — the single operator `"+"` (the default branch of
`lexAddOrInc`) and the identifier `"foo"` with no trailing newline (the exit
of `lexKeywordOrIdent`) — `next` returns the eof sentinel with width 0, the
following `backup` hits its `log.Fatalln` branch, and `Parse` terminates the
process instead of returning a token sequence. -/
theorem claim_C3 :
    Parse ("+".toList) = Outcome.fatal backupMsg ∧
      Parse ("foo".toList) = Outcome.fatal backupMsg := by
  exact ⟨by decide, by decide⟩

/-- C2.  The scan does abort on malformed and eof-truncated input, contrary to
the claim: the repository's own `lexer_test.go` expects `"package main"` to
scan to `Package`, `Ident`, `Semicolon` and expects malformed constructs to
become `Invalid`-bit tokens with scanning resumed, but the code terminates the
whole process by `log.Fatalln` on `"package main"` (backup after eof), and on
a stray rune (`"#;"`) `errorf` emits a single `Error`-kind token and ends the
scan, so the `";"` after the `"#"` is never tokenized. -/
theorem claim_C2 :
    Parse ("package main".toList) = Outcome.fatal backupMsg ∧
      Parse ("#;".toList) =
        Outcome.done [⟨Kind.Error, "syntax error; unexpected \x27#\x27".toList⟩] := by
  exact ⟨by decide, by decide⟩

/-- C4.  Carriage returns are NOT stripped from raw string literals, contrary
to the claim and to `lexer_test.go` (which wants `` `foo\nbar` ``): scanning
the backtick-delimited input `` `foo\r\nbar` `` stores the value verbatim,
CR included (the trailing synthetic semicolon and `EOF` terminator follow). -/
theorem claim_C4 :
    Parse ("\x60foo\r\nbar\x60".toList) =
      Outcome.done [⟨Kind.String, "\x60foo\r\nbar\x60".toList⟩,
        ⟨Kind.Semicolon, ";".toList⟩, ⟨Kind.EOF, []⟩] ∧
      '\r' ∈ ("\x60foo\r\nbar\x60".toList) := by
  exact ⟨by decide, by decide⟩

/-- C5.  Scanning `"foo/*\n*/"` emits `Ident("foo")`, `Semicolon(";")`,
`Comment("/*\n*/")` in that order — the newline-spanning general comment acts
like a newline and the synthetic semicolon is placed before the trailing
comment — followed only by the `EOF` terminator token (an end-of-input
representation the spec leaves to the implementation), so the non-`EOF`
tokens are exactly the three claimed ones. -/
theorem claim_C5 :
    Parse ("foo/*\n*/".toList) =
      Outcome.done [⟨Kind.Ident, "foo".toList⟩, ⟨Kind.Semicolon, ";".toList⟩,
        ⟨Kind.Comment, "/*\n*/".toList⟩, ⟨Kind.EOF, []⟩] ∧
      List.filter (fun t => !(t.kind == Kind.EOF))
          ([⟨Kind.Ident, "foo".toList⟩, ⟨Kind.Semicolon, ";".toList⟩,
            ⟨Kind.Comment, "/*\n*/".toList⟩, ⟨Kind.EOF, []⟩] : List Token) =
        [⟨Kind.Ident, "foo".toList⟩, ⟨Kind.Semicolon, ";".toList⟩,
          ⟨Kind.Comment, "/*\n*/".toList⟩] := by
  exact ⟨by decide, by decide⟩

/-- C6.  The emitted line-comment value DOES include the terminating newline,
contrary to the claim and to `lexer_test.go` (which wants `"// a comment "`):
`lexLineComment` emits after `next` has consumed the newline, so the stored
value of `"// a comment \n"` is the whole input, newline included. -/
theorem claim_C6 :
    Parse ("// a comment \n".toList) =
      Outcome.done [⟨Kind.Comment, "// a comment \n".toList⟩, ⟨Kind.EOF, []⟩] ∧
      '\n' ∈ ("// a comment \n".toList) := by
  exact ⟨by decide, by decide⟩

/-- C7.  Scanning `"078"` produces a plain valid `Int` token with value
`"078"` and no diagnostic whatsoever, contrary to the claim and to
`lexer_test.go` (which wants an invalid token with message
"invalid digit '8' in octal constant"): `lexDotOrNumber` never validates
octal digits. -/
theorem claim_C7 :
    Parse ("078".toList) =
      Outcome.done [⟨Kind.Int, "078".toList⟩, ⟨Kind.Semicolon, ";".toList⟩,
        ⟨Kind.EOF, []⟩] := by
  decide

end GoScan
